import Mathlib

/-!
Verification of the Cosmos Hub fee-admission decorator (x/globalfee/ante/fee.go)
and the v8 upgrade bank-metadata repair, as a shallow embedding in Lean 4.

Coin amounts are natural numbers; decimal gas prices are rationals (the SDK
decimal type is a fixed-point rational with 18 fractional digits, and the
only operations used here — multiplication by an integer gas limit and
ceiling — are exact on rationals).
-/

namespace GlobalFee

abbrev Denom := String

/-- A coin of the `sdk.Coins` fee set: denomination plus non-negative integer amount. -/
structure Coin where
  denom : Denom
  amount : Nat
deriving Repr, DecidableEq

abbrev Coins := List Coin

/-- A decimal coin of `sdk.DecCoins` (a min gas price entry). -/
structure DecCoin where
  denom : Denom
  amount : ℚ
deriving Repr, DecidableEq

/-- Insert a coin into a denom-ordered list (helper of `Sort`). -/
def insertCoin (c : Coin) : Coins → Coins
  | [] => [c]
  | c2 :: cs => if c.denom < c2.denom then c :: c2 :: cs else c2 :: insertCoin c cs

/-- `sdk.Coins.Sort`: order the coin list by denomination. -/
def sortCoins : Coins → Coins
  | [] => []
  | c :: cs => insertCoin c (sortCoins cs)

/-- `sdk.Coins.AmountOf`: amount of the given denomination, `0` if absent. -/
def AmountOf (cs : Coins) (d : Denom) : Nat :=
  match cs.find? (fun c => c.denom = d) with
  | some c => c.amount
  | none => 0

/-- `sdk.Coins.DenomsSubsetOf`: false when the receiver has more entries than
`csB`, otherwise every receiver denomination must have a non-zero amount in `csB`. -/
def DenomsSubsetOf (cs csB : Coins) : Bool :=
  if csB.length < cs.length then false
  else cs.all (fun c => AmountOf csB c.denom != 0)

/-- `sdk.Coins.IsAnyGTE`: true iff `csB` is non-empty and some coin of `cs` has
an amount greater than or equal to the (non-zero) amount of the same
denomination in `csB`. -/
def IsAnyGTE (cs csB : Coins) : Bool :=
  if csB.isEmpty then false
  else cs.any (fun c => decide (AmountOf csB c.denom ≤ c.amount) && (AmountOf csB c.denom != 0))

/-- Modelled from the spec: `getNonZeroFees` (x/globalfee/ante/fee_utils.go is not
among the provided sources) partitions a fee requirement into its non-zero-rate
subset (a sorted coin list) and its zero-rate subset, kept as the set of
zero-amount denominations. -/
def getNonZeroFees (fees : Coins) : Coins × List Denom :=
  (sortCoins (fees.filter (fun c => c.amount != 0)),
   (fees.filter (fun c => c.amount == 0)).map (fun c => c.denom))

/-- Modelled from the spec: `splitCoinsByDenoms` (x/globalfee/ante/fee_utils.go is
not among the provided sources) partitions the declared fee by whether each
denomination appears in the zero-rate denomination set; both parts sorted. -/
def splitCoinsByDenoms (feeCoins : Coins) (zeroDenoms : List Denom) : Coins × Coins :=
  (sortCoins (feeCoins.filter (fun c => !(zeroDenoms.contains c.denom))),
   sortCoins (feeCoins.filter (fun c => zeroDenoms.contains c.denom)))

/-- The sdk error a rejection wraps (`sdkerrors.ErrInvalidCoins` vs
`sdkerrors.ErrInsufficientFee`). -/
inductive SdkBase where
  | invalidCoins
  | insufficientFee
deriving Repr, DecidableEq

/-- Errors of the fee decorator pipeline.  `feeNotSubset` is the
"fee is not a subset of required fees" rejection (carrying the wrapped sdk base
error and the got/required coin sets); `insufficientFees` is the
"insufficient fees" rejection. -/
inductive FeeError where
  | txDecode
  | emptyStakingBondDenom
  | globalFeeCannotBeEmpty
  | feeNotSubset (base : SdkBase) (got required : Coins)
  | insufficientFees (got required : Coins)
deriving Repr, DecidableEq

/-- The part of `sdk.Context` the decorator reads: the CheckTx flag and the
node-local `minimum-gas-prices` configuration. -/
structure Context where
  isCheckTx : Bool
  minGasPrices : List DecCoin
deriving Repr, DecidableEq

/-- The part of `sdk.FeeTx` the decorator reads: declared fee, gas limit and the
message type URLs of the transaction messages. -/
structure FeeTx where
  fee : Coins
  gas : Nat
  msgs : List String
deriving Repr, DecidableEq

/-- An incoming `sdk.Tx`: either it implements `sdk.FeeTx` or it does not. -/
inductive Tx where
  | fee (t : FeeTx)
  | nonFee
deriving Repr, DecidableEq

/-- The `FeeDecorator` configuration.  The two param subspaces are modelled by
their read values: `GlobalMinFee` holds `some prices` when the param store `Has`
the min-gas-prices key, and the staking subspace by the bond denom it returns. -/
structure FeeDecorator where
  BypassMinFeeMsgTypes : List String
  MaxTotalBypassMinFeeMsgGasUsage : Nat
  GlobalMinGasPrices : Option (List DecCoin)
  BondDenom : String
deriving Repr, DecidableEq

/-- `DefaultZeroGlobalFee`: a single zero decimal coin in the staking bond denom,
or an error when the bond denom is empty. -/
def FeeDecorator.DefaultZeroGlobalFee (mfd : FeeDecorator) : Except FeeError (List DecCoin) :=
  if mfd.BondDenom = "" then Except.error FeeError.emptyStakingBondDenom
  else Except.ok [⟨mfd.BondDenom, 0⟩]

/-- `GetGlobalFee`: read the governance min gas prices (empty when the param is
absent), default them to the zero bond-denom coin when empty, then require
`ceil(price * gas)` per denomination, sorted. -/
def FeeDecorator.GetGlobalFee (mfd : FeeDecorator) (feeTx : FeeTx) : Except FeeError Coins :=
  let globalMinGasPrices :=
    match mfd.GlobalMinGasPrices with
    | some ps => ps
    | none => []
  match (if globalMinGasPrices.length = 0 then mfd.DefaultZeroGlobalFee
         else Except.ok globalMinGasPrices) with
  | Except.error e => Except.error e
  | Except.ok prices =>
    Except.ok (sortCoins (prices.map
      (fun gp => Coin.mk gp.denom (Int.toNat ⌈gp.amount * (feeTx.gas : ℚ)⌉))))

/-- `GetMinGasPrice`: the node-local fee floor, `ceil(price * gas)` per configured
denomination, or the empty set when the configured prices are all zero. -/
def GetMinGasPrice (ctx : Context) (gasLimit : Nat) : Coins :=
  let minGasPrices := ctx.minGasPrices
  if minGasPrices.all (fun gp => gp.amount = 0) then []
  else sortCoins (minGasPrices.map
    (fun gp => Coin.mk gp.denom (Int.toNat ⌈gp.amount * (gasLimit : ℚ)⌉)))

/-- Modelled from the spec: `CombinedFeeRequirement` (x/globalfee/ante/fee_utils.go
is not among the provided sources) combines the global floor with the local
floor: error when the global floor is empty; the global floor alone when the
local floor is empty; otherwise, per global denomination, the larger of the
global requirement and the matching local requirement. -/
def CombinedFeeRequirement (globalFees minGasPrices : Coins) : Except FeeError Coins :=
  if globalFees.length = 0 then Except.error FeeError.globalFeeCannotBeEmpty
  else if minGasPrices.length = 0 then Except.ok globalFees
  else Except.ok (sortCoins (globalFees.map (fun f =>
    match minGasPrices.find? (fun c => c.denom = f.denom) with
    | some c => if f.amount < c.amount then c else f
    | none => f)))

/-- `GetTxFeeRequired`: in CheckTx the combination of global and local floors,
otherwise (DeliverTx) the global floor alone. -/
def FeeDecorator.GetTxFeeRequired (mfd : FeeDecorator) (ctx : Context) (tx : FeeTx) :
    Except FeeError Coins :=
  match mfd.GetGlobalFee tx with
  | Except.error e => Except.error e
  | Except.ok globalFees =>
    if !ctx.isCheckTx then Except.ok globalFees
    else CombinedFeeRequirement globalFees (GetMinGasPrice ctx (tx.gas))

/-- `ContainsOnlyBypassMinFeeMsgs`: every message type URL is in the bypass list. -/
def FeeDecorator.ContainsOnlyBypassMinFeeMsgs (mfd : FeeDecorator) (msgs : List String) : Bool :=
  msgs.all (fun m => mfd.BypassMinFeeMsgTypes.contains m)

/-- `AnteHandle`: the fee admission pipeline.  `Except.ok ()` models passing the
transaction to the next ante handler. -/
def FeeDecorator.AnteHandle (mfd : FeeDecorator) (ctx : Context) (tx : Tx)
    (simulate : Bool) : Except FeeError Unit :=
  match tx with
  | Tx.nonFee => Except.error FeeError.txDecode
  | Tx.fee feeTx =>
    if simulate then Except.ok ()
    else
      match mfd.GetTxFeeRequired ctx feeTx with
      | Except.error e => Except.error e
      | Except.ok feeRequired =>
        if feeRequired.length < feeTx.fee.length then
          Except.error (FeeError.feeNotSubset SdkBase.invalidCoins feeTx.fee feeRequired)
        else
          let feeCoins := sortCoins feeTx.fee
          let gas := feeTx.gas
          let msgs := feeTx.msgs
          let nonZeroCoinFeesReq := (getNonZeroFees feeRequired).1
          let zeroCoinFeesDenomReq := (getNonZeroFees feeRequired).2
          let feeCoinsNonZeroDenom := (splitCoinsByDenoms feeCoins zeroCoinFeesDenomReq).1
          let feeCoinsZeroDenom := (splitCoinsByDenoms feeCoins zeroCoinFeesDenomReq).2
          if !(DenomsSubsetOf feeCoinsNonZeroDenom nonZeroCoinFeesReq) then
            Except.error (FeeError.feeNotSubset SdkBase.insufficientFee feeCoins feeRequired)
          else
            let doesNotExceedMaxGasUsage := decide (gas ≤ mfd.MaxTotalBypassMinFeeMsgGasUsage)
            let allowedToBypassMinFee :=
              mfd.ContainsOnlyBypassMinFeeMsgs msgs && doesNotExceedMaxGasUsage
            if allowedToBypassMinFee then Except.ok ()
            else if feeCoins.length = 0 then
              if zeroCoinFeesDenomReq.length ≠ 0 then Except.ok ()
              else Except.error (FeeError.insufficientFees feeCoins feeRequired)
            else if 0 < feeCoinsZeroDenom.length then Except.ok ()
            else if !(IsAnyGTE feeCoinsNonZeroDenom nonZeroCoinFeesReq) then
              Except.error (FeeError.insufficientFees feeCoins feeRequired)
            else Except.ok ()

end GlobalFee

namespace V8Upgrade

/-- Bank denomination metadata; only the fields `FixBankMetadata` reads or
writes (`Base` is the key `SetDenomMetaData` stores under). -/
structure Metadata where
  base : String
  name : String
  symbol : String
deriving Repr, DecidableEq

/-- The bank module denom-metadata store, keyed by denomination. -/
def BankState := String → Option Metadata

/-- Raw store write (also models the raw delete with `none`). -/
def put (s : BankState) (k : String) (v : Option Metadata) : BankState :=
  fun d => if d = k then v else s d

/-- `BankKeeper.SetDenomMetaData`: stores the metadata under its `Base` key. -/
def SetDenomMetaData (s : BankState) (m : Metadata) : BankState :=
  put s m.base (some m)

/-- Errors of `FixBankMetadata` (`errors.New` values in the source). -/
inductive UpgradeError where
  | malformedNotFixed
  | atomDenomNotFound
deriving Repr, DecidableEq

/-- The tail of `FixBankMetadata`: populate the missing `Name` and `Symbol`
fields of the metadata stored under the correct denom, erroring when absent. -/
def fixNameSymbol (s : BankState) : Option UpgradeError × BankState :=
  match s "uatom" with
  | none => (some UpgradeError.atomDenomNotFound, s)
  | some md =>
    (none, SetDenomMetaData s { md with name := "Cosmos Hub Atom", symbol := "ATOM" })

/-- `FixBankMetadata` (app/upgrades/v8): when metadata is stored under the
malformed denom, re-save it (under its `Base` key), delete the malformed key,
and error if the malformed key is still readable; then populate the `Name` and
`Symbol` fields of the correct entry.  Returns the error (if any) together with
the mutated store. -/
def FixBankMetadata (s : BankState) : Option UpgradeError × BankState :=
  match s "uatomu" with
  | some atomMetaData =>
    let s1 := SetDenomMetaData s atomMetaData
    let s2 := put s1 "uatomu" none
    match s2 "uatomu" with
    | some _ => (some UpgradeError.malformedNotFixed, s2)
    | none => fixNameSymbol s2
  | none => fixNameSymbol s

end V8Upgrade

namespace GlobalFee

theorem mem_insertCoin {c a : Coin} {l : Coins} : c ∈ insertCoin a l ↔ c = a ∨ c ∈ l := by
  induction l with
  | nil => simp [insertCoin]
  | cons c2 cs ih =>
    by_cases h : a.denom < c2.denom
    · simp [insertCoin, h]
    · simp only [insertCoin, if_neg h, List.mem_cons, ih]
      tauto

theorem mem_sortCoins {c : Coin} {l : Coins} : c ∈ sortCoins l ↔ c ∈ l := by
  induction l with
  | nil => simp [sortCoins]
  | cons a cs ih => simp [sortCoins, mem_insertCoin, ih]

theorem getTxFeeRequired_not_checkTx (mfd : FeeDecorator) (ctx : Context) (tx : FeeTx)
    (h : ctx.isCheckTx = false) :
    mfd.GetTxFeeRequired ctx tx = mfd.GetGlobalFee tx := by
  unfold FeeDecorator.GetTxFeeRequired
  cases hg : mfd.GetGlobalFee tx with
  | error e => rfl
  | ok g => simp [h]

theorem GetGlobalFee_single_nat (mfd : FeeDecorator) (t : FeeTx) (d : Denom) (p : Nat)
    (h : mfd.GlobalMinGasPrices = some [⟨d, ((p : Nat) : ℚ)⟩]) :
    mfd.GetGlobalFee t = Except.ok [⟨d, p * t.gas⟩] := by
  rw [FeeDecorator.GetGlobalFee]
  have hc : Int.toNat ⌈((p : Nat) : ℚ) * ((t.gas : Nat) : ℚ)⌉ = p * t.gas := by
    rw [← Nat.cast_mul, Int.ceil_natCast, Int.toNat_natCast]
  simp [h, sortCoins, insertCoin, hc]

theorem length_insertCoin (c : Coin) (l : Coins) :
    (insertCoin c l).length = l.length + 1 := by
  induction l with
  | nil => rfl
  | cons a as ih => by_cases h : c.denom < a.denom <;> simp [insertCoin, h, ih]

theorem length_sortCoins (l : Coins) : (sortCoins l).length = l.length := by
  induction l with
  | nil => rfl
  | cons a as ih => simp [sortCoins, length_insertCoin, ih]

theorem AmountOf_eq_zero {cs : Coins} {d : Denom} (h : ∀ x ∈ cs, x.denom ≠ d) :
    AmountOf cs d = 0 := by
  rw [AmountOf]
  have : cs.find? (fun c => c.denom = d) = none := by
    rw [List.find?_eq_none]
    intro x hx
    simp [h x hx]
  rw [this]

theorem DenomsSubsetOf_true_iff {A B : Coins} :
    DenomsSubsetOf A B = true ↔
      ¬ B.length < A.length ∧ ∀ c ∈ A, AmountOf B c.denom ≠ 0 := by
  rw [DenomsSubsetOf]
  by_cases h : B.length < A.length
  · simp [h]
  · simp [h, List.all_eq_true]

theorem bypass_false_of_not (mfd : FeeDecorator) (t : FeeTx)
    (hnobypass : ¬(mfd.ContainsOnlyBypassMinFeeMsgs t.msgs = true ∧
      t.gas ≤ mfd.MaxTotalBypassMinFeeMsgGasUsage)) :
    (mfd.ContainsOnlyBypassMinFeeMsgs t.msgs &&
      decide (t.gas ≤ mfd.MaxTotalBypassMinFeeMsgGasUsage)) = false := by
  cases hcb : (mfd.ContainsOnlyBypassMinFeeMsgs t.msgs &&
      decide (t.gas ≤ mfd.MaxTotalBypassMinFeeMsgGasUsage)) with
  | false => rfl
  | true =>
    rw [Bool.and_eq_true] at hcb
    exact absurd ⟨hcb.1, of_decide_eq_true hcb.2⟩ hnobypass

/-- C10: a transaction that does not implement the fee-transaction interface is
rejected with the transaction-decode error, for every simulate flag value (the
interface check precedes the simulation bypass). -/
theorem anteHandle_nonFeeTx_rejected (mfd : FeeDecorator) (ctx : Context) (simulate : Bool) :
    mfd.AnteHandle ctx Tx.nonFee simulate = Except.error FeeError.txDecode := rfl

/-- C1: `GetTxFeeRequired` returns the global floor alone outside CheckTx mode,
and the combination of the global and local floors in CheckTx mode, so local
policy never contributes outside pre-execution validation. -/
theorem getTxFeeRequired_modes (mfd : FeeDecorator) (ctx : Context) (tx : FeeTx) :
    (ctx.isCheckTx = false → mfd.GetTxFeeRequired ctx tx = mfd.GetGlobalFee tx) ∧
    (ctx.isCheckTx = true → ∀ g, mfd.GetGlobalFee tx = Except.ok g →
      mfd.GetTxFeeRequired ctx tx = CombinedFeeRequirement g (GetMinGasPrice ctx tx.gas)) := by
  constructor
  · intro h
    unfold FeeDecorator.GetTxFeeRequired
    cases hg : mfd.GetGlobalFee tx with
    | error e => rfl
    | ok g => simp [h]
  · intro h g hg
    unfold FeeDecorator.GetTxFeeRequired
    rw [hg]
    simp [h]

theorem getTxFeeRequired_modes_witness :
    (FeeDecorator.mk [] 0 none "uatom").GetTxFeeRequired ⟨false, []⟩ ⟨[], 1, []⟩ =
      (FeeDecorator.mk [] 0 none "uatom").GetGlobalFee ⟨[], 1, []⟩ :=
  (getTxFeeRequired_modes (FeeDecorator.mk [] 0 none "uatom") ⟨false, []⟩ ⟨[], 1, []⟩).1 rfl

/-- C7: with an absent or empty governance min-gas-prices set, the global fee
requirement is the single zero coin in the staking bond denom, and an error
when the bond denom is empty. -/
theorem getGlobalFee_default_bondDenom (mfd : FeeDecorator) (t : FeeTx)
    (h : mfd.GlobalMinGasPrices = none ∨ mfd.GlobalMinGasPrices = some []) :
    (mfd.BondDenom ≠ "" →
      mfd.GetGlobalFee t = Except.ok [⟨mfd.BondDenom, 0⟩]) ∧
    (mfd.BondDenom = "" →
      mfd.GetGlobalFee t = Except.error FeeError.emptyStakingBondDenom) := by
  constructor
  · intro hb
    rcases h with h | h <;>
      simp [FeeDecorator.GetGlobalFee, h, FeeDecorator.DefaultZeroGlobalFee, hb,
        sortCoins, insertCoin]
  · intro hb
    rcases h with h | h <;>
      simp [FeeDecorator.GetGlobalFee, h, FeeDecorator.DefaultZeroGlobalFee, hb]

theorem getGlobalFee_default_bondDenom_witness :
    (FeeDecorator.mk [] 0 none "uatom").GetGlobalFee ⟨[], 1, []⟩ =
      Except.ok [⟨"uatom", 0⟩] :=
  (getGlobalFee_default_bondDenom (FeeDecorator.mk [] 0 none "uatom") ⟨[], 1, []⟩
    (Or.inl rfl)).1 (by decide)

/-- C6: both the global-floor and the local-floor computations require, per
configured gas price, the ceiling of price times gas; in particular a price of
one tenth with gas 3 requires amount 1, not 0. -/
theorem requiredFee_ceiling (mfd : FeeDecorator) (ctx : Context) (t : FeeTx)
    (g : Nat) (ps : List DecCoin)
    (hps : mfd.GlobalMinGasPrices = some ps) (hne : ps ≠ [])
    (hz : ctx.minGasPrices.all (fun gp => gp.amount = 0) = false) :
    (∀ R, mfd.GetGlobalFee t = Except.ok R →
      R.length = ps.length ∧
      ∀ gp ∈ ps, Coin.mk gp.denom (Int.toNat ⌈gp.amount * (t.gas : ℚ)⌉) ∈ R) ∧
    ((GetMinGasPrice ctx g).length = ctx.minGasPrices.length ∧
      ∀ gp ∈ ctx.minGasPrices,
        Coin.mk gp.denom (Int.toNat ⌈gp.amount * (g : ℚ)⌉) ∈ GetMinGasPrice ctx g) ∧
    GetMinGasPrice (Context.mk true [⟨"uatom", (1 : ℚ)/10⟩]) 3 = [⟨"uatom", 1⟩] := by
  have hceil : Int.toNat ⌈((1:ℚ)/10) * ((3:Nat):ℚ)⌉ = 1 := by
    have h3 : ((3:Nat):ℚ) = 3 := by norm_num
    rw [h3]
    have h : (⌈((1:ℚ)/10) * 3⌉ : ℤ) = 1 := Int.ceil_eq_iff.mpr (by norm_num)
    rw [h]
    rfl
  have hall : ([⟨"uatom", (1:ℚ)/10⟩] : List DecCoin).all (fun gp => gp.amount = 0) = false := by
    norm_num
  refine ⟨?_, ?_, ?_⟩
  case refine_3 =>
    rw [GetMinGasPrice]
    simp only [hall, Bool.false_eq_true, if_false, List.map, sortCoins, insertCoin, hceil]
  · intro R hR
    have hlen : ps.length ≠ 0 := fun h => hne (List.length_eq_zero.mp h)
    rw [FeeDecorator.GetGlobalFee] at hR
    simp only [hps, if_neg hlen] at hR
    have hR2 : R = sortCoins (ps.map
        (fun gp => Coin.mk gp.denom (Int.toNat ⌈gp.amount * (t.gas : ℚ)⌉))) :=
      (Except.ok.injEq _ _ ▸ hR).symm
    constructor
    · rw [hR2, length_sortCoins, List.length_map]
    · intro gp hgp
      rw [hR2, mem_sortCoins]
      exact List.mem_map_of_mem _ hgp
  · constructor
    · rw [GetMinGasPrice]
      simp only [hz, Bool.false_eq_true, if_false]
      rw [length_sortCoins, List.length_map]
    · intro gp hgp
      rw [GetMinGasPrice]
      simp only [hz, Bool.false_eq_true, if_false]
      rw [mem_sortCoins]
      exact List.mem_map_of_mem _ hgp

theorem requiredFee_ceiling_witness :
    GetMinGasPrice (Context.mk true [⟨"uatom", (1 : ℚ)/10⟩]) 3 = [⟨"uatom", 1⟩] :=
  (requiredFee_ceiling (FeeDecorator.mk [] 0 (some [⟨"uatom", 1⟩]) "uatom")
    (Context.mk true [⟨"uatom", (1 : ℚ)/10⟩]) ⟨[], 1, []⟩ 3 [⟨"uatom", 1⟩]
    rfl (by simp) (by norm_num)).2.2

/-- C8 counterexample: outside CheckTx mode and with the simulate flag false,
the decorator still runs the fee checks against the global floor and rejects a
transaction whose declared fee misses it, so deterministic replay does not
always accept. -/
theorem anteHandle_deliverTx_rejects_cex :
    (Context.mk false []).isCheckTx = false ∧
    (FeeDecorator.mk [] 0 (some [⟨"uatom", ((1 : Nat) : ℚ)⟩]) "uatom").AnteHandle
        (Context.mk false []) (Tx.fee ⟨[], 5, ["m"]⟩) false =
      Except.error (FeeError.insufficientFees [] [⟨"uatom", 5⟩]) := by
  refine ⟨rfl, ?_⟩
  have hreq : (FeeDecorator.mk [] 0 (some [⟨"uatom", ((1 : Nat) : ℚ)⟩]) "uatom").GetTxFeeRequired
      (Context.mk false []) ⟨[], 5, ["m"]⟩ = Except.ok [⟨"uatom", 5⟩] := by
    rw [getTxFeeRequired_not_checkTx _ _ _ rfl,
      GetGlobalFee_single_nat _ _ "uatom" 1 rfl]
    simp
  rw [FeeDecorator.AnteHandle, hreq]
  simp [sortCoins, getNonZeroFees, splitCoinsByDenoms, DenomsSubsetOf,
    FeeDecorator.ContainsOnlyBypassMinFeeMsgs, insertCoin, AmountOf, IsAnyGTE]

/-- C8 amended: with the simulate flag set the decorator always passes a
fee-implementing transaction to the next handler; outside CheckTx mode the fee
checks still run, but their outcome is independent of the node's local minimum
gas prices — only the global floor matters during deterministic replay. -/
theorem anteHandle_simulate_and_deliver (mfd : FeeDecorator) (t : FeeTx)
    (ctx ctx2 : Context) :
    mfd.AnteHandle ctx (Tx.fee t) true = Except.ok () ∧
    (ctx.isCheckTx = false → ctx2.isCheckTx = false → ∀ simulate,
      mfd.AnteHandle ctx (Tx.fee t) simulate = mfd.AnteHandle ctx2 (Tx.fee t) simulate) := by
  constructor
  · rfl
  · intro h1 h2 simulate
    cases simulate
    · rw [FeeDecorator.AnteHandle, FeeDecorator.AnteHandle,
        getTxFeeRequired_not_checkTx mfd ctx t h1, getTxFeeRequired_not_checkTx mfd ctx2 t h2]
    · rfl

theorem anteHandle_simulate_and_deliver_witness :
    (FeeDecorator.mk [] 0 none "uatom").AnteHandle ⟨false, []⟩ (Tx.fee ⟨[], 1, []⟩) false =
      (FeeDecorator.mk [] 0 none "uatom").AnteHandle ⟨false, [⟨"photon", 7⟩]⟩
        (Tx.fee ⟨[], 1, []⟩) false :=
  (anteHandle_simulate_and_deliver (FeeDecorator.mk [] 0 none "uatom") ⟨[], 1, []⟩
    ⟨false, []⟩ ⟨false, [⟨"photon", 7⟩]⟩).2 rfl rfl false

/-- C3: a transaction whose gas limit is within the bypass ceiling and whose
message types are all in the bypass list is accepted once the denomination
checks pass, regardless of the declared fee amounts. -/
theorem anteHandle_bypass_accepts (mfd : FeeDecorator) (ctx : Context) (t : FeeTx) (R : Coins)
    (hreq : mfd.GetTxFeeRequired ctx t = Except.ok R)
    (hmsgs : mfd.ContainsOnlyBypassMinFeeMsgs t.msgs = true)
    (hgas : t.gas ≤ mfd.MaxTotalBypassMinFeeMsgGasUsage)
    (hlen : t.fee.length ≤ R.length)
    (hsub : DenomsSubsetOf (splitCoinsByDenoms (sortCoins t.fee) (getNonZeroFees R).2).1
              (getNonZeroFees R).1 = true) :
    mfd.AnteHandle ctx (Tx.fee t) false = Except.ok () := by
  have h1 : (R.length < t.fee.length) = False := eq_false (Nat.not_lt.mpr hlen)
  rw [FeeDecorator.AnteHandle]
  simp [hreq, h1, hsub, hmsgs, hgas]

theorem anteHandle_bypass_accepts_witness :
    (FeeDecorator.mk ["a"] 100 (some [⟨"uatom", ((1 : Nat) : ℚ)⟩]) "uatom").AnteHandle
        ⟨false, []⟩ (Tx.fee ⟨[⟨"uatom", 1⟩], 10, ["a"]⟩) false = Except.ok () :=
  anteHandle_bypass_accepts
    (FeeDecorator.mk ["a"] 100 (some [⟨"uatom", ((1 : Nat) : ℚ)⟩]) "uatom")
    ⟨false, []⟩ ⟨[⟨"uatom", 1⟩], 10, ["a"]⟩ [⟨"uatom", 10⟩]
    (by rw [getTxFeeRequired_not_checkTx _ _ _ rfl,
          GetGlobalFee_single_nat _ _ "uatom" 1 rfl]
        simp)
    (by decide) (by decide) (by decide) (by decide)

/-- C5: a non-bypassing transaction with an empty declared fee is accepted when
the zero-rate subset of the fee requirement is non-empty, and rejected with the
insufficient-fee error when the zero-rate subset is empty. -/
theorem anteHandle_emptyFee (mfd : FeeDecorator) (ctx : Context) (t : FeeTx) (R : Coins)
    (hreq : mfd.GetTxFeeRequired ctx t = Except.ok R)
    (hfee : t.fee = [])
    (hnobypass : ¬(mfd.ContainsOnlyBypassMinFeeMsgs t.msgs = true ∧
      t.gas ≤ mfd.MaxTotalBypassMinFeeMsgGasUsage)) :
    ((getNonZeroFees R).2 ≠ [] →
      mfd.AnteHandle ctx (Tx.fee t) false = Except.ok ()) ∧
    ((getNonZeroFees R).2 = [] →
      mfd.AnteHandle ctx (Tx.fee t) false =
        Except.error (FeeError.insufficientFees [] R)) := by
  have hb := bypass_false_of_not mfd t hnobypass
  rw [FeeDecorator.AnteHandle, hreq, hfee]
  constructor
  · intro hz
    have hzl : (getNonZeroFees R).2.length ≠ 0 := by
      intro h
      exact hz (List.length_eq_zero.mp h)
    simp [sortCoins, splitCoinsByDenoms, DenomsSubsetOf, hb, hzl]
  · intro hz
    simp [sortCoins, splitCoinsByDenoms, DenomsSubsetOf, hb, hz]

theorem anteHandle_emptyFee_witness :
    (FeeDecorator.mk [] 0 none "uatom").AnteHandle ⟨false, []⟩
        (Tx.fee ⟨[], 5, ["m"]⟩) false = Except.ok () :=
  (anteHandle_emptyFee (FeeDecorator.mk [] 0 none "uatom") ⟨false, []⟩
    ⟨[], 5, ["m"]⟩ [⟨"uatom", 0⟩]
    (by rw [getTxFeeRequired_not_checkTx _ _ _ rfl]
        simp [FeeDecorator.GetGlobalFee, FeeDecorator.DefaultZeroGlobalFee,
          sortCoins, insertCoin])
    rfl (by decide)).1 (by decide)

/-- C4: when the declared fee denominations are not a subset of the required
fee denominations, admission always rejects with the fee-not-subset
(denomination mismatch) error — on the early count check when the declared fee
has more denominations than required, and otherwise on the non-zero-rate
denomination subset check. -/
theorem anteHandle_denom_mismatch_rejects (mfd : FeeDecorator) (ctx : Context)
    (t : FeeTx) (R : Coins)
    (hreq : mfd.GetTxFeeRequired ctx t = Except.ok R)
    (hnot : ¬ ∀ c ∈ t.fee, c.denom ∈ R.map (fun x => x.denom)) :
    ∃ b got, mfd.AnteHandle ctx (Tx.fee t) false =
      Except.error (FeeError.feeNotSubset b got R) := by
  rw [FeeDecorator.AnteHandle, hreq]
  by_cases hlen : R.length < t.fee.length
  · exact ⟨SdkBase.invalidCoins, t.fee, by simp [hlen]⟩
  · push_neg at hnot
    obtain ⟨c, hc, hcd⟩ := hnot
    have hcdR : ∀ x ∈ R, x.denom ≠ c.denom := by
      intro x hx h
      exact hcd (h ▸ List.mem_map_of_mem _ hx)
    have hnz : c.denom ∉ (getNonZeroFees R).2 := by
      intro hmem
      rw [getNonZeroFees] at hmem
      obtain ⟨x, hx, hxd⟩ := List.mem_map.mp hmem
      exact hcdR x (List.mem_filter.mp hx).1 hxd
    have hmemNZ : c ∈ (splitCoinsByDenoms (sortCoins t.fee) (getNonZeroFees R).2).1 := by
      rw [splitCoinsByDenoms, mem_sortCoins, List.mem_filter]
      exact ⟨mem_sortCoins.mpr hc, by simp [hnz]⟩
    have hAmt : AmountOf (getNonZeroFees R).1 c.denom = 0 := by
      apply AmountOf_eq_zero
      intro x hx
      rw [getNonZeroFees] at hx
      exact hcdR x (List.mem_filter.mp (mem_sortCoins.mp hx)).1
    have hfalse : DenomsSubsetOf
        (splitCoinsByDenoms (sortCoins t.fee) (getNonZeroFees R).2).1
        (getNonZeroFees R).1 = false := by
      cases hds : DenomsSubsetOf
          (splitCoinsByDenoms (sortCoins t.fee) (getNonZeroFees R).2).1
          (getNonZeroFees R).1 with
      | false => rfl
      | true => exact absurd hAmt ((DenomsSubsetOf_true_iff.mp hds).2 c hmemNZ)
    refine ⟨SdkBase.insufficientFee, sortCoins t.fee, ?_⟩
    simp [hlen, hfalse]

theorem anteHandle_denom_mismatch_rejects_witness :
    ∃ b got, (FeeDecorator.mk [] 0 (some [⟨"uatom", ((1 : Nat) : ℚ)⟩]) "uatom").AnteHandle
        ⟨false, []⟩ (Tx.fee ⟨[⟨"photon", 3⟩], 2, ["m"]⟩) false =
      Except.error (FeeError.feeNotSubset b got [⟨"uatom", 2⟩]) :=
  anteHandle_denom_mismatch_rejects
    (FeeDecorator.mk [] 0 (some [⟨"uatom", ((1 : Nat) : ℚ)⟩]) "uatom")
    ⟨false, []⟩ ⟨[⟨"photon", 3⟩], 2, ["m"]⟩ [⟨"uatom", 2⟩]
    (by rw [getTxFeeRequired_not_checkTx _ _ _ rfl,
          GetGlobalFee_single_nat _ _ "uatom" 1 rfl]
        simp)
    (by decide)

/-- C2: for a non-bypassing transaction with a non-empty declared fee whose
denominations pass the subset checks and contain no zero-rate-required
denomination, admission accepts iff some single declared denomination's amount
reaches its required amount (no summing across denominations); otherwise it
rejects with the insufficient-fee error carrying the declared and required
coin sets. -/
theorem anteHandle_amount_check (mfd : FeeDecorator) (ctx : Context) (t : FeeTx) (R : Coins)
    (hreq : mfd.GetTxFeeRequired ctx t = Except.ok R)
    (hne : t.fee ≠ [])
    (hlen : t.fee.length ≤ R.length)
    (hsub : DenomsSubsetOf (splitCoinsByDenoms (sortCoins t.fee) (getNonZeroFees R).2).1
              (getNonZeroFees R).1 = true)
    (hnozero : ∀ c ∈ t.fee, c.denom ∉ (getNonZeroFees R).2)
    (hnobypass : ¬(mfd.ContainsOnlyBypassMinFeeMsgs t.msgs = true ∧
      t.gas ≤ mfd.MaxTotalBypassMinFeeMsgGasUsage)) :
    (mfd.AnteHandle ctx (Tx.fee t) false = Except.ok () ↔
      ∃ c ∈ t.fee, AmountOf (getNonZeroFees R).1 c.denom ≤ c.amount) ∧
    (mfd.AnteHandle ctx (Tx.fee t) false ≠ Except.ok () →
      mfd.AnteHandle ctx (Tx.fee t) false =
        Except.error (FeeError.insufficientFees (sortCoins t.fee) R)) := by
  have hb := bypass_false_of_not mfd t hnobypass
  have h1 : (R.length < t.fee.length) = False := eq_false (Nat.not_lt.mpr hlen)
  have hfilter_all : (sortCoins t.fee).filter
      (fun c => !((getNonZeroFees R).2.contains c.denom)) = sortCoins t.fee := by
    rw [List.filter_eq_self]
    intro a ha
    simp [hnozero a (mem_sortCoins.mp ha)]
  have hFNZ : (splitCoinsByDenoms (sortCoins t.fee) (getNonZeroFees R).2).1 =
      sortCoins (sortCoins t.fee) := by
    rw [splitCoinsByDenoms, hfilter_all]
  have hfz : (splitCoinsByDenoms (sortCoins t.fee) (getNonZeroFees R).2).2 = [] := by
    rw [splitCoinsByDenoms]
    have hnilf : (sortCoins t.fee).filter
        (fun c => (getNonZeroFees R).2.contains c.denom) = [] := by
      rw [List.filter_eq_nil_iff]
      intro c hcmem
      simp [hnozero c (mem_sortCoins.mp hcmem)]
    rw [hnilf]
    rfl
  have hmemFNZ : ∀ c, c ∈ (splitCoinsByDenoms (sortCoins t.fee) (getNonZeroFees R).2).1 ↔
      c ∈ t.fee := by
    intro c
    rw [hFNZ, mem_sortCoins, mem_sortCoins]
  have hlFNZ : (splitCoinsByDenoms (sortCoins t.fee) (getNonZeroFees R).2).1.length =
      t.fee.length := by
    rw [hFNZ, length_sortCoins, length_sortCoins]
  have hlen0 : ((sortCoins t.fee).length = 0) = False := by
    rw [length_sortCoins]
    exact eq_false (fun h => hne (List.length_eq_zero.mp h))
  have hNZRne : ((getNonZeroFees R).1.isEmpty) = false := by
    have h2 := (DenomsSubsetOf_true_iff.mp hsub).1
    rw [hlFNZ] at h2
    have h3 : 0 < t.fee.length := by
      cases hl : t.fee.length with
      | zero => exact absurd (List.length_eq_zero.mp hl) hne
      | succ n => exact Nat.succ_pos n
    have h4 : 0 < (getNonZeroFees R).1.length := lt_of_lt_of_le h3 (Nat.not_lt.mp h2)
    cases he : (getNonZeroFees R).1 with
    | nil => rw [he] at h4; exact absurd h4 (by simp)
    | cons a l => rfl
  have hany : IsAnyGTE (splitCoinsByDenoms (sortCoins t.fee) (getNonZeroFees R).2).1
        (getNonZeroFees R).1 = true ↔
      ∃ c ∈ t.fee, AmountOf (getNonZeroFees R).1 c.denom ≤ c.amount := by
    rw [IsAnyGTE, hNZRne]
    simp only [Bool.false_eq_true, if_false, List.any_eq_true]
    constructor
    · rintro ⟨c, hcFNZ, hp⟩
      rw [Bool.and_eq_true] at hp
      exact ⟨c, (hmemFNZ c).mp hcFNZ, of_decide_eq_true hp.1⟩
    · rintro ⟨c, hct, hle⟩
      refine ⟨c, (hmemFNZ c).mpr hct, ?_⟩
      rw [Bool.and_eq_true]
      refine ⟨decide_eq_true hle, ?_⟩
      have hnz := (DenomsSubsetOf_true_iff.mp hsub).2 c ((hmemFNZ c).mpr hct)
      simp [hnz]
  have key : mfd.AnteHandle ctx (Tx.fee t) false =
      (if IsAnyGTE (splitCoinsByDenoms (sortCoins t.fee) (getNonZeroFees R).2).1
            (getNonZeroFees R).1 = true then Except.ok ()
       else Except.error (FeeError.insufficientFees (sortCoins t.fee) R)) := by
    rw [FeeDecorator.AnteHandle, hreq]
    simp only [Bool.false_eq_true, if_false, h1, hsub, Bool.not_true, hb, hfz,
      hlen0, List.length_nil, Nat.lt_irrefl, ite_false]
    cases hA : IsAnyGTE (splitCoinsByDenoms (sortCoins t.fee) (getNonZeroFees R).2).1
        (getNonZeroFees R).1 <;> simp [hA]
  cases hA : IsAnyGTE (splitCoinsByDenoms (sortCoins t.fee) (getNonZeroFees R).2).1
      (getNonZeroFees R).1 with
  | true =>
    rw [hA] at key
    simp only [if_true] at key
    refine ⟨?_, ?_⟩
    · rw [key]
      simp only [true_iff]
      exact hany.mp hA
    · intro hneq
      exact absurd key hneq
  | false =>
    rw [hA] at key
    simp only [Bool.false_eq_true, if_false] at key
    refine ⟨?_, fun _ => key⟩
    rw [key]
    constructor
    · intro h
      exact absurd h (by simp)
    · intro h
      exact absurd (hany.mpr h) (by rw [hA]; simp)

theorem anteHandle_amount_check_witness :
    (FeeDecorator.mk [] 0 (some [⟨"uatom", ((1 : Nat) : ℚ)⟩]) "uatom").AnteHandle
        ⟨false, []⟩ (Tx.fee ⟨[⟨"uatom", 5⟩], 5, ["m"]⟩) false = Except.ok () :=
  (anteHandle_amount_check
    (FeeDecorator.mk [] 0 (some [⟨"uatom", ((1 : Nat) : ℚ)⟩]) "uatom")
    ⟨false, []⟩ ⟨[⟨"uatom", 5⟩], 5, ["m"]⟩ [⟨"uatom", 5⟩]
    (by rw [getTxFeeRequired_not_checkTx _ _ _ rfl,
          GetGlobalFee_single_nat _ _ "uatom" 1 rfl]
        simp)
    (by decide) (by decide) (by decide) (by decide) (by decide)).1.mpr
    ⟨⟨"uatom", 5⟩, by decide, by decide⟩

end GlobalFee

namespace V8Upgrade

theorem put_same (s : BankState) (k : String) (v : Option Metadata) : put s k v k = v := by
  simp [put]

theorem put_other (s : BankState) (k : String) (v : Option Metadata) (d : String)
    (h : d ≠ k) : put s k v d = s d := by
  simp [put, h]

theorem put_put (s : BankState) (k : String) (v w : Option Metadata) :
    put (put s k v) k w = put s k w := by
  funext d
  by_cases h : d = k <;> simp [put, h]

theorem put_none_eq (s : BankState) (k : String) (h : s k = none) :
    put s k none = s := by
  funext d
  by_cases hd : d = k
  · rw [hd, put_same, h]
  · rw [put_other _ _ _ _ hd]

theorem fix_eq_of_none (s : BankState) (hm : s "uatomu" = none) :
    FixBankMetadata s = fixNameSymbol s := by
  rw [FixBankMetadata, hm]

theorem fix_eq_of_found (s : BankState) (m : Metadata) (hm : s "uatomu" = some m) :
    FixBankMetadata s = fixNameSymbol (put (SetDenomMetaData s m) "uatomu" none) := by
  rw [FixBankMetadata, hm]
  show (match (put (SetDenomMetaData s m) "uatomu" none) "uatomu" with
    | some _ => (some UpgradeError.malformedNotFixed, put (SetDenomMetaData s m) "uatomu" none)
    | none => fixNameSymbol (put (SetDenomMetaData s m) "uatomu" none)) =
    fixNameSymbol (put (SetDenomMetaData s m) "uatomu" none)
  rw [put_same]

theorem fix_idem_aux (t : BankState) (h : t "uatomu" = none) :
    (FixBankMetadata ((FixBankMetadata t).2)).2 = (FixBankMetadata t).2 := by
  rw [fix_eq_of_none t h]
  cases hc : t "uatom" with
  | none =>
    have e2 : fixNameSymbol t = (some UpgradeError.atomDenomNotFound, t) := by
      rw [fixNameSymbol, hc]
    rw [e2, fix_eq_of_none t h, e2]
  | some md =>
    have e2 : fixNameSymbol t =
        (none, SetDenomMetaData t ⟨md.base, "Cosmos Hub Atom", "ATOM"⟩) := by
      rw [fixNameSymbol, hc]
    rw [e2]
    have hs1 : SetDenomMetaData t ⟨md.base, "Cosmos Hub Atom", "ATOM"⟩ =
        put t md.base (some ⟨md.base, "Cosmos Hub Atom", "ATOM"⟩) := rfl
    by_cases hbu : md.base = "uatomu"
    · have hs1u : SetDenomMetaData t ⟨md.base, "Cosmos Hub Atom", "ATOM"⟩ "uatomu" =
          some ⟨md.base, "Cosmos Hub Atom", "ATOM"⟩ := by
        rw [hs1, hbu]
        exact put_same t "uatomu" _
      rw [fix_eq_of_found _ _ hs1u]
      have heq : put (SetDenomMetaData
            (SetDenomMetaData t ⟨md.base, "Cosmos Hub Atom", "ATOM"⟩)
            ⟨md.base, "Cosmos Hub Atom", "ATOM"⟩) "uatomu" none = t := by
        rw [hs1]
        rw [show SetDenomMetaData (put t md.base (some ⟨md.base, "Cosmos Hub Atom", "ATOM"⟩))
              ⟨md.base, "Cosmos Hub Atom", "ATOM"⟩ =
            put (put t md.base (some ⟨md.base, "Cosmos Hub Atom", "ATOM"⟩)) md.base
              (some ⟨md.base, "Cosmos Hub Atom", "ATOM"⟩) from rfl]
        rw [put_put, hbu, put_put]
        exact put_none_eq t "uatomu" h
      rw [heq, e2]
    · have hs1u : SetDenomMetaData t ⟨md.base, "Cosmos Hub Atom", "ATOM"⟩ "uatomu" = none := by
        rw [hs1, put_other t md.base _ "uatomu" (fun hh => hbu hh.symm)]
        exact h
      rw [fix_eq_of_none _ hs1u]
      by_cases hba : md.base = "uatom"
      · have hsa : SetDenomMetaData t ⟨md.base, "Cosmos Hub Atom", "ATOM"⟩ "uatom" =
            some ⟨md.base, "Cosmos Hub Atom", "ATOM"⟩ := by
          rw [hs1, hba]
          exact put_same t "uatom" _
        rw [fixNameSymbol, hsa]
        show put (put t md.base (some ⟨md.base, "Cosmos Hub Atom", "ATOM"⟩)) md.base
            (some ⟨md.base, "Cosmos Hub Atom", "ATOM"⟩) =
          put t md.base (some ⟨md.base, "Cosmos Hub Atom", "ATOM"⟩)
        exact put_put t md.base _ _
      · have hsa : SetDenomMetaData t ⟨md.base, "Cosmos Hub Atom", "ATOM"⟩ "uatom" =
            some md := by
          rw [hs1, put_other t md.base _ "uatom" (fun hh => hba hh.symm)]
          exact hc
        rw [fixNameSymbol, hsa]
        show put (put t md.base (some ⟨md.base, "Cosmos Hub Atom", "ATOM"⟩)) md.base
            (some ⟨md.base, "Cosmos Hub Atom", "ATOM"⟩) =
          put t md.base (some ⟨md.base, "Cosmos Hub Atom", "ATOM"⟩)
        exact put_put t md.base _ _

/-- C9: the denomination-metadata repair is idempotent — for every starting
bank store, running `FixBankMetadata` twice leaves the same store as running
it once (after a first run the malformed key is gone and the second run only
re-applies the same `Name` and `Symbol` fields). -/
theorem FixBankMetadata_idempotent (s : BankState) :
    (FixBankMetadata ((FixBankMetadata s).2)).2 = (FixBankMetadata s).2 := by
  cases hu : s "uatomu" with
  | none => exact fix_idem_aux s hu
  | some m =>
    have e : FixBankMetadata s =
        fixNameSymbol (put (SetDenomMetaData s m) "uatomu" none) :=
      fix_eq_of_found s m hu
    have h2 : (put (SetDenomMetaData s m) "uatomu" none) "uatomu" = none :=
      put_same _ _ _
    have e2 : FixBankMetadata (put (SetDenomMetaData s m) "uatomu" none) =
        fixNameSymbol (put (SetDenomMetaData s m) "uatomu" none) :=
      fix_eq_of_none _ h2
    rw [e, ← e2]
    exact fix_idem_aux _ h2

end V8Upgrade
